import Mathlib

/-!
# DupScan — shallow embedding of `src/duplicate_file_report.py`

This file embeds the duplicate-file-report pipeline (file enumeration,
fingerprinting, styled-report assembly) as executable Lean definitions and
proves the specification claims about it.

Conventions of the embedding:
* file contents are byte lists (`Bytes`), each entry a byte value;
* the filesystem is a finite tree (`FSNode`) reachable from named roots
  (`FileSystem`); `os.walk` is modelled by a structural walk that, like the
  Python primitive with its default `onerror=None`, yields nothing for a
  root that does not exist or is not a directory;
* the MD5 primitive of `hashlib` is modelled abstractly as any incremental
  accumulator (`HashAlgo`): an initial state, an `update` consuming a chunk
  of bytes, and a final `hexdigest`; the program feeds it fixed-size chunks
  exactly as the Python loop does;
* `pandas.DataFrame.sort_values(by="File Size")` is modelled as an abstract
  parameter `sort_values`; pandas guarantees the result is a permutation of
  the rows (claims that need it take that guarantee as a hypothesis);
* the rendered workbook is a `Worksheet`: a title, a list of rows of styled
  `Cell`s, and the per-column widths computed by the final loop of
  `generate_styled_excel_report`.
-/

namespace DupScan

/-- A file's content: its sequence of byte values. -/
abbrev Bytes := List Nat

/-- Abstract incremental hash accumulator, the interface of `hashlib.md5()`:
`init` is the fresh accumulator, `update` feeds it one chunk of bytes, and
`hexdigest` finalises it to a hex string. -/
structure HashAlgo (σ : Type) where
  init : σ
  update : σ → Bytes → σ
  hexdigest : σ → String

/-- The default chunk size of `calculate_full_hash`: 1024 * 1024 bytes. -/
def chunkSizeDefault : Nat := 1024 * 1024

/-- The chunks produced by `while chunk := f.read(chunk_size)` on a file whose
content is the given byte list: the `i`-th read returns the bytes from offset
`i * chunk_size` on, capped at `chunk_size`, and the loop ends at the first
empty read (an empty `bytes` is falsy in Python), i.e. after
`⌈content.length / chunk_size⌉` iterations.  Reading with `chunk_size = 0`
returns an empty chunk at once, so the loop body never runs. -/
def readChunks (chunk_size : Nat) (content : Bytes) : List Bytes :=
  if chunk_size = 0 then []
  else (List.range ((content.length + chunk_size - 1) / chunk_size)).map
    (fun i => (content.drop (i * chunk_size)).take chunk_size)

/-- `calculate_full_hash`: feed the file's bytes chunk by chunk into the
incremental accumulator and finalise to the hex digest
(lines 11-17 of `duplicate_file_report.py`). -/
def calculate_full_hash {σ : Type} (A : HashAlgo σ) (content : Bytes) : String :=
  A.hexdigest ((readChunks chunkSizeDefault content).foldl A.update A.init)

/-- A character matched by the regex class `[A-Za-z0-9]`. -/
def isAlnumAscii (c : Char) : Bool :=
  c.isAlpha || c.isDigit

/-- `is_form_type`: `re.match(r"^\([A-Za-z0-9]+\)", filename)` — the name must
begin with `(`, then one or more `[A-Za-z0-9]` characters, then `)`.  Because
`)` is not in the character class, the greedy one-or-more match succeeds
exactly when the maximal alphanumeric run after `(` is nonempty and is
followed by `)` (lines 19-22). -/
def is_form_type (filename : String) : String :=
  if filename.toList.head? = some '(' then
    if 1 ≤ (filename.toList.tail.takeWhile isAlnumAscii).length
        ∧ (filename.toList.tail.drop
            (filename.toList.tail.takeWhile isAlnumAscii).length).head? = some ')' then
      "Form(maybe)"
    else ""
  else ""

/-- Model of Python's `str.rfind('.')` on a character list: the index of the
last occurrence of `'.'`, or `none` when there is none. -/
def rfindDot : List Char → Option Nat
  | [] => none
  | c :: rest =>
    match rfindDot rest with
    | some i => some (i + 1)
    | none => if c = '.' then some 0 else none

/-- The extension part of `os.path.splitext(file)` for a bare file name (no
path separator): locate the last `.`; if at least one character before it is
not itself a `.` (CPython's `genericpath._splitext` skips leading dots), the
extension is the substring from that `.` onward, otherwise it is empty. -/
def splitextExt (p : String) : String :=
  (rfindDot p.toList).elim ""
    (fun d =>
      if (p.toList.take d).any (fun c => c != '.') then String.mk (p.toList.drop d)
      else "")

/-- Model of Python's `str.lower()` on the names this program feeds it
(ASCII): lowercase every character. -/
def strLower (s : String) : String :=
  String.mk (s.toList.map Char.toLower)

/-- Model of `os.path.basename` for the names yielded by the walk: the part
after the last `/` (the walk yields bare names, which it leaves unchanged). -/
def basename (s : String) : String :=
  String.mk ((s.toList.reverse.takeWhile (fun c => c != '/')).reverse)

/-- One record of the report, the tuple appended by `list_all_files`:
`(file name, hash, extension, size, folder label, content type)` (line 36). -/
structure FileRecord where
  name : String
  hash : String
  extension : String
  size : Nat
  folderLabel : String
  contentTypeHint : String
deriving DecidableEq, Repr

/-- A node of the modelled filesystem: a regular file with its bytes, or a
directory with a listing of named children (in directory-listing order). -/
inductive FSNode where
  | file (content : Bytes)
  | dir (entries : List (String × FSNode))
deriving Repr

/-- The filesystem visible to the program: the named roots it may be pointed
at.  A path not listed here does not exist. -/
abbrev FileSystem := List (String × FSNode)

/-- Resolve a root path, as the OS would: `none` when no such path exists. -/
def lookupRoot (fs : FileSystem) (path : String) : Option FSNode :=
  (fs.find? (fun e => e.1 == path)).map (fun e => e.2)

/-- The regular files directly inside a directory listing, with contents. -/
def dirFiles (entries : List (String × FSNode)) : List (String × Bytes) :=
  entries.filterMap (fun e =>
    match e.2 with
    | .file c => some (e.1, c)
    | .dir _ => none)

mutual
/-- Files yielded by `os.walk` below one node, in walk order: the files of
the current directory first (`files` of the top-down triple), then each
subdirectory's files recursively, in listing order.  Walking a regular file
yields nothing: `scandir` raises, and `os.walk`'s default `onerror=None`
swallows the error. -/
def walkNode : FSNode → List (String × Bytes)
  | .file _ => []
  | .dir entries => dirFiles entries ++ walkDirs entries

/-- The recursive part of the walk over a directory listing: visit each
child in order; file children contribute nothing here (they were already
listed by `dirFiles`), directory children are walked recursively. -/
def walkDirs : List (String × FSNode) → List (String × Bytes)
  | [] => []
  | e :: rest => walkNode e.2 ++ walkDirs rest
end

/-- `os.walk(folder_path)` flattened to the `(file name, content)` pairs the
enumeration loop visits.  A root that does not exist, or is not a directory,
yields the empty sequence without error (default `onerror=None`). -/
def os_walk_files (fs : FileSystem) (folder_path : String) : List (String × Bytes) :=
  match lookupRoot fs folder_path with
  | some n => walkNode n
  | none => []

/-- Whether a path names an existing directory in the modelled filesystem. -/
def isDirIn (fs : FileSystem) (path : String) : Bool :=
  match lookupRoot fs path with
  | some (.dir _) => true
  | _ => false

/-- The body of the enumeration loop of `list_all_files` (lines 29-36): one
`FileRecord` built from a file's bare name, its bytes, and the caller's
folder label.  The hash is computed from the content alone; name and label
only populate the other fields. -/
def fingerprint {σ : Type} (A : HashAlgo σ) (file : String) (content : Bytes)
    (folder_label : String) : FileRecord :=
  { name := basename file
    hash := calculate_full_hash A content
    extension := strLower (splitextExt file)
    size := content.length
    folderLabel := folder_label
    contentTypeHint := is_form_type file }

/-- `list_all_files` (lines 24-37): walk the root and fingerprint every file
found, tagging each record with the caller-supplied folder label. -/
def list_all_files {σ : Type} (A : HashAlgo σ) (fs : FileSystem)
    (folder_path folder_label : String) : List FileRecord :=
  (os_walk_files fs folder_path).map (fun e => fingerprint A e.1 e.2 folder_label)

/-- One spreadsheet cell: its rendered value and the styling the report
applies (an optional solid-fill color, bold font, optional alignment). -/
structure Cell where
  value : String
  fill : Option String
  bold : Bool
  alignment : Option String
deriving DecidableEq, Repr

/-- The rendered worksheet: title, all rows (header first), and the column
widths set by the final sizing loop. -/
structure Worksheet where
  title : String
  rows : List (List Cell)
  widths : List Nat
deriving DecidableEq, Repr

/-- Result of `generate_styled_excel_report`: the saved worksheet, together
with the caller's `file_list` as the function leaves it.  The function's only
use of `file_list` is `pd.DataFrame(file_list, ...)`, which copies the tuples
into the frame; the in-place sort then acts on that copy (`df`), never on the
argument list. -/
structure ReportResult where
  worksheet : Worksheet
  file_list : List FileRecord
deriving DecidableEq, Repr

/-- The fixed header row values (lines 42-44 and 67). -/
def headers : List String :=
  ["File Name", "File Hash", "File Type", "File Size", "Folder", "Content Type"]

/-- A header cell: gold fill, bold, centered (lines 60, 69-72). -/
def headerCell (h : String) : Cell :=
  { value := h, fill := some "FFD700", bold := true, alignment := some "center" }

/-- The fill applied to the "Folder" cell by the `if/elif` on the folder
label (lines 82-86): light blue for `"Folder1"`, light pink for `"Folder2"`,
and no fill at all for any other label. -/
def folderFill (label : String) : Option String :=
  if label = "Folder1" then some "ADD8E6"
  else if label = "Folder2" then some "FFC0CB"
  else none

/-- The six rendered values of one data row, in column order
`File Name, File Hash, File Type, File Size, Folder, Content Type`;
the integer size is rendered in decimal as `str` would. -/
def renderValues (r : FileRecord) : List String :=
  [r.name, r.hash, r.extension, toString r.size, r.folderLabel, r.contentTypeHint]

/-- One data row as written and styled by the loop of lines 75-95: the hash
cell (column B) is filled yellow iff the row's hash count exceeds 1, the
folder cell (column E) is filled according to `folderFill`, and every cell is
center-aligned. -/
def dataRow (hash_counts : String → Nat) (r : FileRecord) : List Cell :=
  [ { value := r.name, fill := none, bold := false, alignment := some "center" },
    { value := r.hash,
      fill := if 1 < hash_counts r.hash then some "FFFF00" else none,
      bold := false, alignment := some "center" },
    { value := r.extension, fill := none, bold := false, alignment := some "center" },
    { value := toString r.size, fill := none, bold := false, alignment := some "center" },
    { value := r.folderLabel, fill := folderFill r.folderLabel,
      bold := false, alignment := some "center" },
    { value := r.contentTypeHint, fill := none, bold := false, alignment := some "center" } ]

/-- The width assigned to column `c` before padding: the maximum rendered
length over every cell present in that column (header and data), as computed
by `max(len(str(cell.value)) for cell in col)` (line 99). -/
def colWidth (rows : List (List Cell)) (c : Nat) : Nat :=
  ((rows.filterMap (fun row => row[c]?)).map (fun cell => cell.value.length)).foldl
    Nat.max 0

/-- `generate_styled_excel_report` (lines 39-103), parameterised by the
sorting primitive standing for `df.sort_values(by="File Size")`:
build the frame, sort it, count hashes over the sorted frame, emit the
header row and one styled row per record, then set each of the six column
widths to the longest value in the column plus 2.  The caller's list is
returned unchanged alongside the worksheet. -/
def generate_styled_excel_report (sort_values : List FileRecord → List FileRecord)
    (file_list : List FileRecord) : ReportResult :=
  let df := sort_values file_list
  let hash_counts : String → Nat := fun h => df.countP (fun r => r.hash == h)
  let rows := (headers.map headerCell) :: df.map (dataRow hash_counts)
  { worksheet :=
      { title := "File List Report"
        rows := rows
        widths := (List.range 6).map (fun c => colWidth rows c + 2) }
    file_list := file_list }

/-- The fill of the "File Hash" cell (column B) of the `i`-th data row of a
worksheet, when that row and cell exist. -/
def hashCellFill (ws : Worksheet) (i : Nat) : Option (Option String) :=
  ws.rows[i + 1]?.bind (fun row => row[1]?.map (fun cell => cell.fill))

/-- The fill of the "Folder" cell (column E) of the `i`-th data row of a
worksheet, when that row and cell exist. -/
def folderCellFill (ws : Worksheet) (i : Nat) : Option (Option String) :=
  ws.rows[i + 1]?.bind (fun row => row[4]?.map (fun cell => cell.fill))

/-- The naming pattern the specification describes for the form-type hint:
the file name begins with an opening parenthesis, then one or more
`[A-Za-z0-9]` characters, then a closing parenthesis (anything may follow).
Stated from the spec's words, to be compared with the code's `is_form_type`. -/
def FormPattern (filename : String) : Prop :=
  ∃ tok rest, tok ≠ [] ∧ (∀ c ∈ tok, isAlnumAscii c = true)
    ∧ filename.toList = '(' :: (tok ++ ')' :: rest)

/-- The extension rule exactly as the claim words it: the substring of the
name from the last `.` onward (inclusive), lowercased, and `""` when the name
contains no `.`.  Stated from the claim's words, to be compared with the
code's `os.path.splitext`-based extension. -/
def extClaimRule (name : String) : String :=
  match rfindDot name.toList with
  | none => ""
  | some d => strLower (String.mk (name.toList.drop d))

/-- A concrete incremental hash accumulator used to instantiate witnesses:
it sums the bytes fed to it and prints the total. -/
def algoW : HashAlgo Nat :=
  { init := 0
    update := fun s chunk => s + chunk.foldl (fun a b => a + b) 0
    hexdigest := fun s => toString s }

/-- A concrete filesystem for witnesses: one real root `"data"` (with a file
and a nested subdirectory), and one plain file `"plain_file"`; the path
`"missing_root"` does not exist in it. -/
def fsW : FileSystem :=
  [("data", .dir [("x.txt", .file [104, 105]), ("sub", .dir [("y.txt", .file [1])])]),
   ("plain_file", .file [1, 2])]

/-- Witness record: hash `"h1"`, label `"Folder1"`. -/
def wRecA : FileRecord :=
  { name := "a.txt", hash := "h1", extension := ".txt", size := 3,
    folderLabel := "Folder1", contentTypeHint := "" }

/-- Witness record: hash `"h1"` (duplicate of `wRecA`), label `"Folder2"`. -/
def wRecB : FileRecord :=
  { name := "b.txt", hash := "h1", extension := ".txt", size := 5,
    folderLabel := "Folder2", contentTypeHint := "" }

/-- Witness record: globally unique hash `"h2"`. -/
def wRecC : FileRecord :=
  { name := "c.txt", hash := "h2", extension := ".txt", size := 7,
    folderLabel := "Folder1", contentTypeHint := "" }

/-- Witness record carrying an unknown folder label `"FolderX"`. -/
def wRecX : FileRecord :=
  { name := "x.txt", hash := "h3", extension := ".txt", size := 9,
    folderLabel := "FolderX", contentTypeHint := "" }

/-! ## General lemmas about lists used by the claim proofs -/

/-- If `r` sits at index `i` of `l` and satisfies `p`, then `l` contains at
least two elements satisfying `p` iff some index other than `i` also holds an
element satisfying `p`. -/
theorem two_le_countP_iff_exists_other {α : Type} (p : α → Bool) (l : List α)
    (i : Nat) (r : α) (hr : l[i]? = some r) (hp : p r = true) :
    2 ≤ l.countP p ↔ ∃ j r', j ≠ i ∧ l[j]? = some r' ∧ p r' = true := by
  induction l generalizing i with
  | nil => simp at hr
  | cons a t ih =>
    cases i with
    | zero =>
      rw [List.getElem?_cons_zero] at hr
      injection hr with hr
      subst hr
      rw [List.countP_cons, hp, if_pos rfl]
      constructor
      · intro h2
        have h1 : 0 < t.countP p := by omega
        rw [List.countP_pos_iff] at h1
        obtain ⟨b, hb, hpb⟩ := h1
        obtain ⟨n, hn⟩ := List.mem_iff_getElem?.mp hb
        exact ⟨n + 1, b, Nat.succ_ne_zero n, by rw [List.getElem?_cons_succ]; exact hn, hpb⟩
      · rintro ⟨j, r', hj, hget, hpr⟩
        cases j with
        | zero => exact absurd rfl hj
        | succ n =>
          rw [List.getElem?_cons_succ] at hget
          have hb : r' ∈ t := List.mem_iff_getElem?.mpr ⟨n, hget⟩
          have hpos : 0 < t.countP p := List.countP_pos_iff.mpr ⟨r', hb, hpr⟩
          omega
    | succ n =>
      rw [List.getElem?_cons_succ] at hr
      rw [List.countP_cons]
      by_cases hpa : p a = true
      · rw [hpa, if_pos rfl]
        have hmem : r ∈ t := List.mem_iff_getElem?.mpr ⟨n, hr⟩
        have hpos : 0 < t.countP p := List.countP_pos_iff.mpr ⟨r, hmem, hp⟩
        constructor
        · intro _
          exact ⟨0, a, (Nat.succ_ne_zero n).symm, List.getElem?_cons_zero, hpa⟩
        · intro _
          omega
      · have hpa' : p a = false := by
          cases hv : p a with
          | true => exact absurd hv hpa
          | false => rfl
        rw [hpa', if_neg (by simp), Nat.add_zero]
        rw [ih n hr]
        constructor
        · rintro ⟨j, r', hj, hget, hpr⟩
          exact ⟨j + 1, r', by omega, by rw [List.getElem?_cons_succ]; exact hget, hpr⟩
        · rintro ⟨j, r', hj, hget, hpr⟩
          cases j with
          | zero =>
            rw [List.getElem?_cons_zero] at hget
            injection hget with hget
            subst hget
            rw [hpa'] at hpr
            exact absurd hpr (by simp)
          | succ m =>
            rw [List.getElem?_cons_succ] at hget
            exact ⟨m, r', by omega, hget, hpr⟩

/-! ## Claim theorems -/

/-- Claim C6: hashing is a deterministic function of file content alone.  Two
files whose byte contents are identical receive the same hash string from the
fingerprinter, whatever their names or folder labels (for any incremental
hash accumulator): the hash field is computed from the content argument only. -/
theorem fingerprint_hash_deterministic {σ : Type} (A : HashAlgo σ)
    (file₁ file₂ : String) (c₁ c₂ : Bytes) (label₁ label₂ : String)
    (h : c₁ = c₂) :
    (fingerprint A file₁ c₁ label₁).hash = (fingerprint A file₂ c₂ label₂).hash := by
  subst h
  rfl

/-- Witness for C6: two files with the same bytes under different names and
folder labels hash identically. -/
theorem fingerprint_hash_deterministic_witness :
    (fingerprint algoW "x.txt" [104, 101, 108, 108, 111] "Folder1").hash
      = (fingerprint algoW "sub-y.bin" [104, 101, 108, 108, 111] "Folder2").hash :=
  fingerprint_hash_deterministic algoW "x.txt" "sub-y.bin" _ _ "Folder1" "Folder2" rfl

/-- Claim C10: the report builder leaves the record list it is given
unchanged — the only use of `file_list` is building the DataFrame copy `df`,
and the in-place sort acts on that copy, so after the call the caller's list
holds the same records in the same order. -/
theorem report_builder_preserves_input (sort_values : List FileRecord → List FileRecord)
    (file_list : List FileRecord) :
    (generate_styled_excel_report sort_values file_list).file_list = file_list := rfl

/-- Claim C8: on an empty record list the report is produced (total function,
no error) and consists of exactly the styled header row and zero data rows.
The hypothesis is pandas' guarantee that sorting permutes the rows, which on
the empty frame forces the empty frame. -/
theorem empty_input_header_only (sort_values : List FileRecord → List FileRecord)
    (hp : (sort_values []).Perm []) :
    (generate_styled_excel_report sort_values []).worksheet.rows
      = [headers.map headerCell] := by
  have h0 : sort_values [] = [] := hp.eq_nil
  simp [generate_styled_excel_report, h0]

/-- Witness for C8: the identity sort (a legitimate permutation of the empty
list) yields a report with exactly the header row. -/
theorem empty_input_header_only_witness :
    (generate_styled_excel_report id []).worksheet.rows = [headers.map headerCell] :=
  empty_input_header_only id (List.Perm.refl [])

/-- Claim C7: the "Folder" cell of every data row carries exactly the fill
selected by `folderFill` from that row's label: light blue for `"Folder1"`,
light pink for `"Folder2"`, and no fill for any other label — the `if/elif`
has no else-branch, so an unknown label silently gets no fill and rendering
still completes (the report function is total). -/
theorem folder_cell_fill_by_label (sort_values : List FileRecord → List FileRecord)
    (file_list : List FileRecord) (i : Nat) (r : FileRecord)
    (hr : (sort_values file_list)[i]? = some r) :
    folderCellFill (generate_styled_excel_report sort_values file_list).worksheet i
        = some (folderFill r.folderLabel)
    ∧ folderFill "Folder1" = some "ADD8E6"
    ∧ folderFill "Folder2" = some "FFC0CB"
    ∧ (r.folderLabel ≠ "Folder1" → r.folderLabel ≠ "Folder2"
        → folderFill r.folderLabel = none) := by
  refine ⟨?_, rfl, rfl, ?_⟩
  · simp [folderCellFill, generate_styled_excel_report, List.getElem?_map, hr, dataRow]
  · intro h1 h2
    simp [folderFill, h1, h2]

/-- Witness for C7: in a concrete report, a `"Folder1"` row gets the blue
fill, a `"Folder2"` row the pink fill, and a row with the unknown label
`"FolderX"` is rendered with no fill on its folder cell. -/
theorem folder_cell_fill_by_label_witness :
    folderCellFill (generate_styled_excel_report id [wRecA, wRecB, wRecX]).worksheet 0
        = some (some "ADD8E6")
    ∧ folderCellFill (generate_styled_excel_report id [wRecA, wRecB, wRecX]).worksheet 1
        = some (some "FFC0CB")
    ∧ folderCellFill (generate_styled_excel_report id [wRecA, wRecB, wRecX]).worksheet 2
        = some none := by
  refine ⟨?_, ?_, ?_⟩
  · exact ((folder_cell_fill_by_label id [wRecA, wRecB, wRecX] 0 wRecA rfl).1).trans
      (by decide)
  · exact ((folder_cell_fill_by_label id [wRecA, wRecB, wRecX] 1 wRecB rfl).1).trans
      (by decide)
  · exact ((folder_cell_fill_by_label id [wRecA, wRecB, wRecX] 2 wRecX rfl).1).trans
      (by decide)

/-- Claim C3 (amended): for a root path that does not exist or is not a
directory, `list_all_files` silently returns the empty list: `os.walk` is
called with its default `onerror=None`, so the `scandir` failure is swallowed,
the walk yields no triples, and no `PathNotFound`/`NotADirectory` error ever
reaches the caller. -/
theorem enumerator_empty_on_bad_root {σ : Type} (A : HashAlgo σ) (fs : FileSystem)
    (path label : String) (h : isDirIn fs path = false) :
    list_all_files A fs path label = [] := by
  unfold list_all_files os_walk_files
  unfold isDirIn at h
  cases hl : lookupRoot fs path with
  | none => simp
  | some node =>
    cases node with
    | file c => simp [walkNode]
    | dir entries =>
      rw [hl] at h
      simp at h

/-- Witness for C3's amended theorem: the concrete path `"missing_root"` is
not a directory of `fsW`, and enumerating it yields the empty list. -/
theorem enumerator_empty_on_bad_root_witness :
    isDirIn fsW "missing_root" = false
    ∧ list_all_files algoW fsW "missing_root" "Folder1" = [] :=
  ⟨by decide, enumerator_empty_on_bad_root algoW fsW "missing_root" "Folder1" (by decide)⟩

/-- Claim C3 counterexample: the enumerator does NOT fail on a bad root — for
the nonexistent path `"missing_root"` and for the non-directory path
`"plain_file"` it silently returns the empty record list (the very behaviour
the claim rules out), while the genuine root `"data"` of the same filesystem
yields records. -/
theorem enumerator_silently_empty_counterexample :
    list_all_files algoW fsW "missing_root" "Folder1" = []
    ∧ list_all_files algoW fsW "plain_file" "Folder1" = []
    ∧ list_all_files algoW fsW "data" "Folder1" ≠ [] :=
  ⟨by decide, by decide, by decide⟩

/-- Claim C1: the "File Hash" cell of the data row holding record `r` is
filled with the duplicate highlight iff at least one other row of the table
carries the same hash — equivalently (via the permutation guarantee of the
sort) iff the hash occurs at least twice in the combined input record set;
a record whose hash occurs exactly once is never highlighted. -/
theorem duplicate_hash_highlight (sort_values : List FileRecord → List FileRecord)
    (file_list : List FileRecord)
    (hperm : (sort_values file_list).Perm file_list)
    (i : Nat) (r : FileRecord)
    (hr : (sort_values file_list)[i]? = some r) :
    (hashCellFill (generate_styled_excel_report sort_values file_list).worksheet i
        = some (some "FFFF00")
      ↔ ∃ j r', j ≠ i ∧ (sort_values file_list)[j]? = some r' ∧ r'.hash = r.hash)
    ∧ (hashCellFill (generate_styled_excel_report sort_values file_list).worksheet i
        = some (some "FFFF00")
      ↔ 2 ≤ file_list.countP (fun x => x.hash == r.hash)) := by
  have hcell : hashCellFill (generate_styled_excel_report sort_values file_list).worksheet i
      = some (if 1 < (sort_values file_list).countP (fun x => x.hash == r.hash)
              then some "FFFF00" else none) := by
    simp [hashCellFill, generate_styled_excel_report, List.getElem?_map, hr, dataRow]
  have hkey : hashCellFill (generate_styled_excel_report sort_values file_list).worksheet i
      = some (some "FFFF00")
      ↔ 2 ≤ (sort_values file_list).countP (fun x => x.hash == r.hash) := by
    rw [hcell]
    rcases Nat.lt_or_ge 1 ((sort_values file_list).countP (fun x => x.hash == r.hash))
      with h | h
    · rw [if_pos h]
      exact iff_of_true rfl h
    · rw [if_neg (by omega)]
      exact iff_of_false (by simp) (by omega)
  refine ⟨?_, ?_⟩
  · rw [hkey,
      two_le_countP_iff_exists_other (fun x => x.hash == r.hash) _ i r hr (by simp)]
    apply exists_congr
    intro j
    apply exists_congr
    intro r'
    simp only [beq_iff_eq]
  · rw [hkey, hperm.countP_eq]

/-- Witness for C1: with two records sharing hash `"h1"` and one record with
the unique hash `"h2"`, the first row's hash cell is highlighted and the
third row's is not. -/
theorem duplicate_hash_highlight_witness :
    hashCellFill (generate_styled_excel_report id [wRecA, wRecB, wRecC]).worksheet 0
      = some (some "FFFF00")
    ∧ ¬ hashCellFill (generate_styled_excel_report id [wRecA, wRecB, wRecC]).worksheet 2
      = some (some "FFFF00") := by
  constructor
  · exact (duplicate_hash_highlight id [wRecA, wRecB, wRecC] (List.Perm.refl _)
      0 wRecA rfl).2.mpr (by decide)
  · intro hcon
    have h := (duplicate_hash_highlight id [wRecA, wRecB, wRecC] (List.Perm.refl _)
      2 wRecC rfl).2.mp hcon
    revert h
    decide

/-- Taking while `p` from `tok ++ x :: r` yields exactly `tok` when every
element of `tok` satisfies `p` and `x` does not. -/
theorem takeWhile_of_append_not {α : Type} (p : α → Bool) (tok : List α) (x : α)
    (r : List α) (htok : ∀ c ∈ tok, p c = true) (hx : p x = false) :
    (tok ++ x :: r).takeWhile p = tok := by
  induction tok with
  | nil =>
    simp only [List.nil_append, List.takeWhile_cons, hx]
    rfl
  | cons a t ih =>
    have ha : p a = true := htok a (List.mem_cons_self a t)
    simp only [List.cons_append, List.takeWhile_cons, ha, if_pos]
    rw [ih (fun c hc => htok c (List.mem_cons_of_mem a hc))]

/-- Dropping the length of the `takeWhile` prefix is the same as `dropWhile`. -/
theorem drop_length_takeWhile {α : Type} (p : α → Bool) (l : List α) :
    l.drop (l.takeWhile p).length = l.dropWhile p := by
  induction l with
  | nil => rfl
  | cons a t ih =>
    cases hpa : p a with
    | true => simp [List.takeWhile_cons, List.dropWhile_cons, hpa, ih]
    | false => simp [List.takeWhile_cons, List.dropWhile_cons, hpa]

/-- Claim C4 (amended): the content-type hint is `"Form(maybe)"` exactly when
the file name begins with an opening parenthesis, one or more alphanumeric
characters, and a closing parenthesis, and is `""` otherwise; in particular
`"(AB12)invoice.pdf"` yields `"Form(maybe)"` and `"invoice(AB12).pdf"` yields
`""` — but, because the regex class `[A-Za-z0-9]+` requires at least one
character, `"()empty.txt"` yields `""`. -/
theorem form_hint_characterisation :
    (∀ fn : String, (is_form_type fn = "Form(maybe)" ↔ FormPattern fn)
      ∧ (is_form_type fn = "" ↔ ¬ FormPattern fn))
    ∧ is_form_type "(AB12)invoice.pdf" = "Form(maybe)"
    ∧ is_form_type "invoice(AB12).pdf" = ""
    ∧ is_form_type "()empty.txt" = "" := by
  have hclose : isAlnumAscii ')' = false := by decide
  have hmain : ∀ fn : String, is_form_type fn = "Form(maybe)" ↔ FormPattern fn := by
    intro fn
    unfold is_form_type
    cases hfn : fn.toList with
    | nil =>
      rw [if_neg (by simp)]
      refine iff_of_false (by decide) ?_
      rintro ⟨tok, rest, _, _, heq⟩
      rw [hfn] at heq
      exact absurd heq (by simp)
    | cons c rest =>
      simp only [List.head?_cons, List.tail_cons]
      by_cases hc : c = '('
      · subst hc
        rw [if_pos rfl]
        by_cases hcond : 1 ≤ (rest.takeWhile isAlnumAscii).length
            ∧ (rest.drop (rest.takeWhile isAlnumAscii).length).head? = some ')'
        · rw [if_pos hcond]
          refine iff_of_true rfl ?_
          obtain ⟨h1, h2⟩ := hcond
          rw [drop_length_takeWhile] at h2
          obtain ⟨tail, htail⟩ := List.head?_eq_some_iff.mp h2
          refine ⟨rest.takeWhile isAlnumAscii, tail, ?_, ?_, ?_⟩
          · intro h0
            rw [h0] at h1
            exact absurd h1 (by decide)
          · intro c hc
            exact List.mem_takeWhile_imp hc
          · rw [hfn]
            have hsplit := List.takeWhile_append_dropWhile isAlnumAscii rest
            rw [htail] at hsplit
            rw [hsplit]
        · rw [if_neg hcond]
          refine iff_of_false (by decide) ?_
          rintro ⟨tok, tail, hne, halnum, heq⟩
          rw [hfn] at heq
          have hrest : rest = tok ++ ')' :: tail := by
            injection heq
          apply hcond
          have htw : rest.takeWhile isAlnumAscii = tok := by
            rw [hrest]
            exact takeWhile_of_append_not isAlnumAscii tok ')' tail halnum hclose
          constructor
          · rw [htw]
            have := List.length_pos.mpr hne
            omega
          · rw [htw, hrest, List.drop_left]
            rfl
      · rw [if_neg (by simp [hc])]
        refine iff_of_false (by decide) ?_
        rintro ⟨tok, tail, _, _, heq⟩
        rw [hfn] at heq
        injection heq with heq1 _
        exact hc heq1
  have hor : ∀ fn : String, is_form_type fn = "Form(maybe)" ∨ is_form_type fn = "" := by
    intro fn
    unfold is_form_type
    cases fn.toList with
    | nil => exact Or.inr (by rw [if_neg (by simp)])
    | cons c rest =>
      simp only [List.head?_cons, List.tail_cons]
      by_cases hc : c = '('
      · rw [if_pos (by rw [hc])]
        by_cases hcond : 1 ≤ (rest.takeWhile isAlnumAscii).length
            ∧ (rest.drop (rest.takeWhile isAlnumAscii).length).head? = some ')'
        · exact Or.inl (by rw [if_pos hcond])
        · exact Or.inr (by rw [if_neg hcond])
      · exact Or.inr (by rw [if_neg (by simp [hc])])
  refine ⟨?_, by decide, by decide, by decide⟩
  intro fn
  refine ⟨hmain fn, ?_, ?_⟩
  · intro hempty hpat
    have := (hmain fn).mpr hpat
    rw [hempty] at this
    exact absurd this (by decide)
  · intro hnp
    cases hor fn with
    | inl hm => exact absurd ((hmain fn).mp hm) hnp
    | inr he => exact he

/-- Claim C4 counterexample: the name `"()empty.txt"` — empty parentheses —
does NOT receive the marker: the regex class `[A-Za-z0-9]+` needs at least
one character, so the hint is `""` and not `"Form(maybe)"` as the claim's
example asserts. -/
theorem form_hint_empty_parens_counterexample :
    is_form_type "()empty.txt" = "" ∧ is_form_type "()empty.txt" ≠ "Form(maybe)" :=
  ⟨by decide, by decide⟩

/-- A character list with no dot has no last-dot index. -/
theorem rfindDot_eq_none {cs : List Char} (h : '.' ∉ cs) : rfindDot cs = none := by
  induction cs with
  | nil => rfl
  | cons c rest ih =>
    have hc : ¬ c = '.' := by
      rintro rfl
      exact h (List.mem_cons_self _ _)
    have hrest : '.' ∉ rest := fun hm => h (List.mem_cons_of_mem _ hm)
    unfold rfindDot
    rw [ih hrest, if_neg hc]

/-- When no dot occurs in `tail`, the last dot of `pre ++ '.' :: tail` sits
exactly at index `pre.length`. -/
theorem rfindDot_append (pre tail : List Char) (h : '.' ∉ tail) :
    rfindDot (pre ++ '.' :: tail) = some pre.length := by
  induction pre with
  | nil =>
    simp only [List.nil_append, List.length_nil]
    unfold rfindDot
    rw [rfindDot_eq_none h, if_pos rfl]
  | cons a pre ih =>
    simp only [List.cons_append, List.length_cons]
    unfold rfindDot
    rw [ih]

/-- The index returned by `rfindDot` really holds a dot. -/
theorem rfindDot_mem_dot {cs : List Char} {d : Nat} (h : rfindDot cs = some d) :
    cs[d]? = some '.' := by
  induction cs generalizing d with
  | nil => exact absurd h (by simp [rfindDot])
  | cons c rest ih =>
    unfold rfindDot at h
    cases hr : rfindDot rest with
    | some i =>
      rw [hr] at h
      injection h with h
      subst h
      rw [List.getElem?_cons_succ]
      exact ih hr
    | none =>
      rw [hr] at h
      by_cases hc : c = '.'
      · rw [if_pos hc] at h
        injection h with h
        subst h
        rw [List.getElem?_cons_zero, hc]
      · rw [if_neg hc] at h
        exact absurd h (by simp)

/-- The `takeWhile` prefix cannot reach past an index whose element falsifies
the predicate. -/
theorem takeWhile_length_le {α : Type} (p : α → Bool) {l : List α} {i : Nat} {x : α}
    (hx : l[i]? = some x) (hpx : p x = false) :
    (l.takeWhile p).length ≤ i := by
  induction l generalizing i with
  | nil => simp at hx
  | cons a t ih =>
    cases hpa : p a with
    | true =>
      cases i with
      | zero =>
        rw [List.getElem?_cons_zero] at hx
        injection hx with hx
        subst hx
        rw [hpa] at hpx
        exact absurd hpx (by simp)
      | succ n =>
        rw [List.getElem?_cons_succ] at hx
        simp only [List.takeWhile_cons, hpa, if_pos, List.length_cons]
        exact Nat.succ_le_succ (ih hx)
    | false =>
      simp [List.takeWhile_cons, hpa]

/-- Claim C5 (amended): the extension recorded in the `FileRecord` is the
substring of the file name from the last `.` onward (inclusive), lowercased —
provided at least one character before that dot is not itself a dot.  When
every character before the last dot is a dot (dot-files such as `".bashrc"`),
or when the name has no dot at all, the extension is `""`: CPython's
`os.path.splitext` skips leading dots.  `"report.final.PDF"` yields `".pdf"`
and `"README"` yields `""`. -/
theorem extension_extraction :
    (∀ {σ : Type} (A : HashAlgo σ) (file : String) (content : Bytes) (label : String)
        (pre tail : List Char),
        file.toList = pre ++ '.' :: tail → '.' ∉ tail → (∃ c ∈ pre, c ≠ '.') →
        (fingerprint A file content label).extension = strLower (String.mk ('.' :: tail)))
    ∧ (∀ {σ : Type} (A : HashAlgo σ) (file : String) (content : Bytes) (label : String),
        '.' ∉ file.toList.dropWhile (fun c => c == '.') →
        (fingerprint A file content label).extension = "")
    ∧ strLower (splitextExt "report.final.PDF") = ".pdf"
    ∧ strLower (splitextExt "README") = "" := by
  refine ⟨?_, ?_, by decide, by decide⟩
  · intro σ A file content label pre tail heq hnd hnotdot
    show strLower (splitextExt file) = strLower (String.mk ('.' :: tail))
    unfold splitextExt
    rw [heq, rfindDot_append pre tail hnd]
    simp only [Option.elim]
    obtain ⟨c, hcmem, hcne⟩ := hnotdot
    rw [if_pos ?hany]
    case hany =>
      rw [List.take_left]
      exact List.any_eq_true.mpr ⟨c, hcmem, by simpa using hcne⟩
    rw [List.drop_left]
  · intro σ A file content label hfar
    show strLower (splitextExt file) = ""
    suffices hs : splitextExt file = "" by rw [hs]; rfl
    unfold splitextExt
    cases hr : rfindDot file.toList with
    | none => simp only [Option.elim]
    | some d =>
      simp only [Option.elim]
      rw [if_neg ?hnot]
      case hnot =>
        intro hany
        obtain ⟨x, hx, hxne⟩ := List.any_eq_true.mp hany
        obtain ⟨i, hi⟩ := List.mem_iff_getElem?.mp hx
        have hid : i < d := by
          have h1 := List.getElem?_eq_some_iff.mp hi
          obtain ⟨hlt, _⟩ := h1
          have h2 : (file.toList.take d).length ≤ d := by
            rw [List.length_take]
            omega
          omega
        have hgi : file.toList[i]? = some x := by
          rw [List.getElem?_take] at hi
          rwa [if_pos hid] at hi
        have hxd : (x == '.') = false := by
          have : x ≠ '.' := by simpa using hxne
          simpa using this
        have hL : (file.toList.takeWhile (fun c => c == '.')).length ≤ i :=
          takeWhile_length_le (fun c => c == '.') hgi hxd
        have hdot : file.toList[d]? = some '.' := rfindDot_mem_dot hr
        have hmem : '.' ∈ file.toList.dropWhile (fun c => c == '.') := by
          rw [← drop_length_takeWhile (fun c => c == '.') file.toList]
          refine List.mem_iff_getElem?.mpr
            ⟨d - (file.toList.takeWhile (fun c => c == '.')).length, ?_⟩
          rw [List.getElem?_drop]
          have : (file.toList.takeWhile (fun c => c == '.')).length
              + (d - (file.toList.takeWhile (fun c => c == '.')).length) = d := by
            omega
          rw [this]
          exact hdot
        exact hfar hmem

/-- Witness for C5's amended theorem: `"report.final.PDF"` records extension
`".pdf"` (last-dot substring, lowercased) and the dot-file `".bashrc"`
records `""`. -/
theorem extension_extraction_witness :
    (fingerprint algoW "report.final.PDF" [1] "Folder1").extension = ".pdf"
    ∧ (fingerprint algoW ".bashrc" [1] "Folder1").extension = "" := by
  constructor
  · exact (extension_extraction.1 algoW "report.final.PDF" [1] "Folder1"
      ("report.final".toList) ("PDF".toList) (by decide) (by decide)
      ⟨'r', by decide, by decide⟩).trans (by decide)
  · exact extension_extraction.2.1 algoW ".bashrc" [1] "Folder1" (by decide)

/-- Claim C5 counterexample: for the dot-file name `".bashrc"` the claim's
rule (substring from the last — here the leading — dot, lowercased) gives
`".bashrc"`, but the record built by the code carries extension `""`:
`os.path.splitext` ignores leading dots. -/
theorem extension_dotfile_counterexample :
    (fingerprint algoW ".bashrc" [] "Folder1").extension = ""
    ∧ extClaimRule ".bashrc" = ".bashrc"
    ∧ ("" : String) ≠ ".bashrc" :=
  ⟨by decide, by decide, by decide⟩

/-- `filterMap` of a positional getter over mapped rows, when the getter is
total on every produced row. -/
theorem filterMap_map_get {α β : Type} (l : List α) (g : α → List β)
    (c : Nat) (f : α → β) (h : ∀ r, (g r)[c]? = some (f r)) :
    (l.map g).filterMap (fun row => row[c]?) = l.map f := by
  induction l with
  | nil => rfl
  | cons a t ih => simp [List.filterMap_cons, h a, ih]

/-- The column-width maximum over the report's rows, reduced to the data
rows: the fold starts from the header cell's rendered length. -/
theorem colWidth_cons_header (hcell : Cell) (df : List FileRecord)
    (g : FileRecord → List Cell) (c : Nat) (f : FileRecord → Cell)
    (hhdr : (headers.map headerCell)[c]? = some hcell)
    (hat : ∀ r, (g r)[c]? = some (f r)) :
    colWidth ((headers.map headerCell) :: df.map g) c
      = (df.map (fun r => (f r).value.length)).foldl Nat.max hcell.value.length := by
  unfold colWidth
  simp only [List.filterMap_cons, hhdr, filterMap_map_get df g c f hat, List.map_cons,
    List.map_map, List.foldl_cons]
  rw [show Nat.max 0 hcell.value.length = hcell.value.length from Nat.zero_max _]
  rfl

/-- Column A of the report: widths fold over the file names. -/
theorem colWidth_report_name (cnt : String → Nat) (df : List FileRecord) :
    colWidth ((headers.map headerCell) :: df.map (dataRow cnt)) 0
      = (df.map (fun r => r.name.length)).foldl Nat.max "File Name".length := by
  have h := colWidth_cons_header (headerCell "File Name") df (dataRow cnt) 0
    (fun r => { value := r.name, fill := none, bold := false, alignment := some "center" })
    rfl (fun r => rfl)
  simpa [headerCell] using h

/-- Column B of the report: widths fold over the hashes. -/
theorem colWidth_report_hash (cnt : String → Nat) (df : List FileRecord) :
    colWidth ((headers.map headerCell) :: df.map (dataRow cnt)) 1
      = (df.map (fun r => r.hash.length)).foldl Nat.max "File Hash".length := by
  have h := colWidth_cons_header (headerCell "File Hash") df (dataRow cnt) 1
    (fun r => { value := r.hash,
                fill := if 1 < cnt r.hash then some "FFFF00" else none,
                bold := false, alignment := some "center" })
    rfl (fun r => rfl)
  simpa [headerCell] using h

/-- Column C of the report: widths fold over the extensions. -/
theorem colWidth_report_ext (cnt : String → Nat) (df : List FileRecord) :
    colWidth ((headers.map headerCell) :: df.map (dataRow cnt)) 2
      = (df.map (fun r => r.extension.length)).foldl Nat.max "File Type".length := by
  have h := colWidth_cons_header (headerCell "File Type") df (dataRow cnt) 2
    (fun r => { value := r.extension, fill := none, bold := false,
                alignment := some "center" })
    rfl (fun r => rfl)
  simpa [headerCell] using h

/-- Column D of the report: widths fold over the rendered sizes. -/
theorem colWidth_report_size (cnt : String → Nat) (df : List FileRecord) :
    colWidth ((headers.map headerCell) :: df.map (dataRow cnt)) 3
      = (df.map (fun r => (toString r.size).length)).foldl Nat.max "File Size".length := by
  have h := colWidth_cons_header (headerCell "File Size") df (dataRow cnt) 3
    (fun r => { value := toString r.size, fill := none, bold := false,
                alignment := some "center" })
    rfl (fun r => rfl)
  simpa [headerCell] using h

/-- Column E of the report: widths fold over the folder labels. -/
theorem colWidth_report_folder (cnt : String → Nat) (df : List FileRecord) :
    colWidth ((headers.map headerCell) :: df.map (dataRow cnt)) 4
      = (df.map (fun r => r.folderLabel.length)).foldl Nat.max "Folder".length := by
  have h := colWidth_cons_header (headerCell "Folder") df (dataRow cnt) 4
    (fun r => { value := r.folderLabel, fill := folderFill r.folderLabel,
                bold := false, alignment := some "center" })
    rfl (fun r => rfl)
  simpa [headerCell] using h

/-- Column F of the report: widths fold over the content-type hints. -/
theorem colWidth_report_hint (cnt : String → Nat) (df : List FileRecord) :
    colWidth ((headers.map headerCell) :: df.map (dataRow cnt)) 5
      = (df.map (fun r => r.contentTypeHint.length)).foldl Nat.max
          "Content Type".length := by
  have h := colWidth_cons_header (headerCell "Content Type") df (dataRow cnt) 5
    (fun r => { value := r.contentTypeHint, fill := none, bold := false,
                alignment := some "center" })
    rfl (fun r => rfl)
  simpa [headerCell] using h

/-- Claim C9: each of the six column widths equals the length of the longest
rendered value in that column — taken over the header cell and every data
cell — plus the fixed padding of 2 (the integer size column measured on its
decimal rendering, as `len(str(value))` does). -/
theorem column_widths_max_plus_two (sort_values : List FileRecord → List FileRecord)
    (file_list : List FileRecord) :
    (generate_styled_excel_report sort_values file_list).worksheet.widths
      = [((sort_values file_list).map (fun r => r.name.length)).foldl Nat.max
            "File Name".length + 2,
         ((sort_values file_list).map (fun r => r.hash.length)).foldl Nat.max
            "File Hash".length + 2,
         ((sort_values file_list).map (fun r => r.extension.length)).foldl Nat.max
            "File Type".length + 2,
         ((sort_values file_list).map (fun r => (toString r.size).length)).foldl Nat.max
            "File Size".length + 2,
         ((sort_values file_list).map (fun r => r.folderLabel.length)).foldl Nat.max
            "Folder".length + 2,
         ((sort_values file_list).map (fun r => r.contentTypeHint.length)).foldl Nat.max
            "Content Type".length + 2] := by
  simp only [generate_styled_excel_report]
  rw [show List.range 6 = [0, 1, 2, 3, 4, 5] from rfl]
  simp only [List.map_cons, List.map_nil]
  rw [colWidth_report_name, colWidth_report_hash, colWidth_report_ext,
    colWidth_report_size, colWidth_report_folder, colWidth_report_hint]

end DupScan
